import Mathlib

/-!
Shallow embedding of the `construct` repository's geometric transform kernel
and the parametric attribute/selection engine (files `src/geometry/*.rs`,
`src/part/*.rs`, `src/errors.rs`).  Rust `f64` is modelled as `ℝ`; Rust
`Vec<T>` as `List T`; fallible operations return `Except Error _`.
Definitions are translated from the Rust source; the few pieces of the
crate that are not present in the provided sources (the `constant` module,
the `Vector * f64` operator and the bodies of the `Attribute` methods,
which are only exercised by the crate's tests) are modelled from the spec
and marked as such in their doc comments.
-/

namespace Construct

/-- The error enumeration from `src/errors.rs`. -/
inductive Error where
  | ParseError
  | FixedAttribute
  | UnnamedAttribute
  | EmptyAttribute
  | ParseFloatError
  | ParseIntError
deriving DecidableEq, Repr

/-- The display message of each error variant, from the `#[error(...)]`
attributes in `src/errors.rs`. -/
def Error.message : Error → String
  | .ParseError => "Could not parse string to geometry"
  | .FixedAttribute => "Attribute scaling value is 0.0"
  | .UnnamedAttribute => "Attribute doesn't have a name"
  | .EmptyAttribute => "Attribute doesn't change any vertices"
  | .ParseFloatError => "Could not parse a float from string"
  | .ParseIntError => "Could not parse an integer from string"

/-- `Vector` from `src/geometry/vector.rs`: three `f64` components. -/
structure Vector where
  x : ℝ
  y : ℝ
  z : ℝ

/-- `Vertex` is an alias of `Vector` in the source. -/
abbrev Vertex := Vector

/-- `Normal` is an alias of `Vertex` in the source. -/
abbrev Normal := Vertex

/-- Rust `#[derive(Default)]` for `Vector`: all components zero. -/
instance : Inhabited Vector := ⟨⟨0, 0, 0⟩⟩

/-- `Vector::magnitude`: `sqrt(x*x + y*y + z*z)`. -/
noncomputable def Vector.magnitude (v : Vector) : ℝ :=
  Real.sqrt (v.x * v.x + v.y * v.y + v.z * v.z)

/-- `Vector::normalize`: divide each component by the magnitude when the
magnitude is positive, otherwise return the vector unchanged. -/
noncomputable def Vector.normalize (v : Vector) : Vector :=
  let m := v.magnitude
  if m > 0 then ⟨v.x / m, v.y / m, v.z / m⟩ else v

/-- Modelled from the spec: the `Vector * f64` componentwise scalar
multiplication used by `Alteration::apply` (`self.dimension * self.magnitude`);
the operator impl is not among the provided sources.  Spec 4.5: "multiplies
direction by magnitude componentwise". -/
def Vector.scalarMul (v : Vector) (s : ℝ) : Vector :=
  ⟨v.x * s, v.y * s, v.z * s⟩

/-- `Matrix` from `src/geometry/matrix.rs`: a row-major 4x4 of `f64`. -/
structure Matrix where
  m11 : ℝ
  m12 : ℝ
  m13 : ℝ
  m14 : ℝ
  m21 : ℝ
  m22 : ℝ
  m23 : ℝ
  m24 : ℝ
  m31 : ℝ
  m32 : ℝ
  m33 : ℝ
  m34 : ℝ
  m41 : ℝ
  m42 : ℝ
  m43 : ℝ
  m44 : ℝ

/-- `MatrixType` from `src/geometry/matrix.rs`. -/
inductive MatrixType where
  | Scale
  | Rotate
  | Translate
deriving DecidableEq, Repr

/-- `Matrix::scale(x,y,z)`. -/
def Matrix.scale (x y z : ℝ) : Matrix :=
  ⟨ x, 0, 0, 0,
    0, y, 0, 0,
    0, 0, z, 0,
    0, 0, 0, 1 ⟩

/-- `Matrix::translate(x,y,z)`. -/
def Matrix.translate (x y z : ℝ) : Matrix :=
  ⟨ 1, 0, 0, x,
    0, 1, 0, y,
    0, 0, 1, z,
    0, 0, 0, 1 ⟩

/-- `Matrix::rotate_x(x)`. -/
noncomputable def Matrix.rotate_x (x : ℝ) : Matrix :=
  ⟨ 1, 0, 0, 0,
    0, Real.cos x, -Real.sin x, 0,
    0, Real.sin x, Real.cos x, 0,
    0, 0, 0, 1 ⟩

/-- `Matrix::rotate_y(y)`. -/
noncomputable def Matrix.rotate_y (y : ℝ) : Matrix :=
  ⟨ Real.cos y, 0, Real.sin y, 0,
    0, 1, 0, 0,
    -Real.sin y, 0, Real.cos y, 0,
    0, 0, 0, 1 ⟩

/-- `Matrix::rotate_z(z)`. -/
noncomputable def Matrix.rotate_z (z : ℝ) : Matrix :=
  ⟨ Real.cos z, -Real.sin z, 0, 0,
    Real.sin z, Real.cos z, 0, 0,
    0, 0, 1, 0,
    0, 0, 0, 1 ⟩

/-- `impl Mul for Matrix`: the standard 4x4 matrix product, written out
entry by entry exactly as in the source. -/
def Matrix.mul (a b : Matrix) : Matrix :=
  ⟨ a.m11 * b.m11 + a.m12 * b.m21 + a.m13 * b.m31 + a.m14 * b.m41,
    a.m11 * b.m12 + a.m12 * b.m22 + a.m13 * b.m32 + a.m14 * b.m42,
    a.m11 * b.m13 + a.m12 * b.m23 + a.m13 * b.m33 + a.m14 * b.m43,
    a.m11 * b.m14 + a.m12 * b.m24 + a.m13 * b.m34 + a.m14 * b.m44,
    a.m21 * b.m11 + a.m22 * b.m21 + a.m23 * b.m31 + a.m24 * b.m41,
    a.m21 * b.m12 + a.m22 * b.m22 + a.m23 * b.m32 + a.m24 * b.m42,
    a.m21 * b.m13 + a.m22 * b.m23 + a.m23 * b.m33 + a.m24 * b.m43,
    a.m21 * b.m14 + a.m22 * b.m24 + a.m23 * b.m34 + a.m24 * b.m44,
    a.m31 * b.m11 + a.m32 * b.m21 + a.m33 * b.m31 + a.m34 * b.m41,
    a.m31 * b.m12 + a.m32 * b.m22 + a.m33 * b.m32 + a.m34 * b.m42,
    a.m31 * b.m13 + a.m32 * b.m23 + a.m33 * b.m33 + a.m34 * b.m43,
    a.m31 * b.m14 + a.m32 * b.m24 + a.m33 * b.m34 + a.m34 * b.m44,
    a.m41 * b.m11 + a.m42 * b.m21 + a.m43 * b.m31 + a.m44 * b.m41,
    a.m41 * b.m12 + a.m42 * b.m22 + a.m43 * b.m32 + a.m44 * b.m42,
    a.m41 * b.m13 + a.m42 * b.m23 + a.m43 * b.m33 + a.m44 * b.m43,
    a.m41 * b.m14 + a.m42 * b.m24 + a.m43 * b.m34 + a.m44 * b.m44 ⟩

noncomputable instance : Mul Matrix := ⟨Matrix.mul⟩

/-- `Matrix::rotate(x,y,z) = rotate_x(x) * rotate_y(y) * rotate_z(z)`,
left-to-right as in the source. -/
noncomputable def Matrix.rotate (x y z : ℝ) : Matrix :=
  ((Matrix.rotate_x x).mul (Matrix.rotate_y y)).mul (Matrix.rotate_z z)

/-- `Matrix::matching(v,x,y,z)`: dispatch on the `MatrixType`. -/
noncomputable def Matrix.matching (v : MatrixType) (x y z : ℝ) : Matrix :=
  match v with
  | .Scale => Matrix.scale x y z
  | .Rotate => Matrix.rotate x y z
  | .Translate => Matrix.translate x y z

/-- The homogeneous weight computed by `Transform for Vector`:
the dot product of the matrix's fourth row with `(x,y,z,1)`. -/
def homogW (v : Vector) (m : Matrix) : ℝ :=
  m.m41 * v.x + m.m42 * v.y + m.m43 * v.z + m.m44 * 1

/-- `impl Transform for Vector` from `src/geometry/vector.rs`: dot the
first three rows and the fourth row with `(x,y,z,1)`, then divide the
first three results by the fourth. -/
noncomputable def Vector.transform (v : Vector) (m : Matrix) : Vector :=
  let w : ℝ := 1
  let dw := m.m41 * v.x + m.m42 * v.y + m.m43 * v.z + m.m44 * w
  let dx := m.m11 * v.x + m.m12 * v.y + m.m13 * v.z + m.m14 * w
  let dy := m.m21 * v.x + m.m22 * v.y + m.m23 * v.z + m.m24 * w
  let dz := m.m31 * v.x + m.m32 * v.y + m.m33 * v.z + m.m34 * w
  ⟨dx / dw, dy / dw, dz / dw⟩

/-- `Face` from `src/geometry/face.rs`: three 0-based vertex indices. -/
structure Face where
  a : Nat
  b : Nat
  c : Nat
deriving DecidableEq, Repr

/-- `Face::new(a,b,c)`: inputs are 1-based; subtract 1 saturating at 0
(`usize::saturating_sub`, which is exactly `Nat` subtraction). -/
def Face.new (a b c : Nat) : Face :=
  ⟨a - 1, b - 1, c - 1⟩

/-- `Face::is_valid(data)`: all three indices are below the vertex count. -/
def Face.is_valid (f : Face) (data : List Vertex) : Bool :=
  let l := data.length
  decide (f.a < l) && decide (f.b < l) && decide (f.c < l)

/-- Modelled from the spec: `constant::FACE_TAG` (the `constant` module is
not among the provided sources).  Spec 6: a face line is a tag plus three
1-based integers; the crate's tests and the spec's examples write the tag
as `f`. -/
def FACE_TAG : String := "f"

/-- `impl From<Face> for String`: re-offset each index by +1 (saturating
add) and format as the tag followed by the three numbers. -/
def Face.toText (f : Face) : String :=
  FACE_TAG ++ " " ++ toString (f.a + 1) ++ " " ++ toString (f.b + 1)
    ++ " " ++ toString (f.c + 1)

/-- `Geometry` from `src/geometry/geometry.rs`: owns the vertex list and
the face list. -/
structure Geometry where
  vertices : List Vertex
  faces : List Face

/-- `Geometry::validated`: return the first `Err(Error::ParseError)` for a
face that is not valid against the vertex list, otherwise `Ok(self)`. -/
def Geometry.validated (g : Geometry) : Except Error Geometry :=
  match g.faces.find? (fun face => !(face.is_valid g.vertices)) with
  | some _ => .error Error.ParseError
  | none => .ok g

/-- `Selection` from `src/part/attribute.rs`: an addressing strategy over
an ordered list. -/
inductive Selection where
  | Specific : List Nat → Selection
  | Range : Nat × Nat → Selection
  | All : Selection
deriving DecidableEq, Repr

namespace Selection

/-- `Selection::give_specific`: for each `(i,v)` in `zip(indices, src)`,
write `dest[i] = v` (the zip stops at the shorter of the two lists). -/
def give_specific {α : Type} (indices : List Nat) (src : List α)
    (dest : List α) : List α :=
  (indices.zip src).foldl (fun d p => d.set p.1 p.2) dest

/-- `Selection::give_range`: `dest.splice(start..end, src)` — the elements
at positions `start..end` are removed and the whole of `src` is inserted
in their place. -/
def give_range {α : Type} (p : Nat × Nat) (src : List α)
    (dest : List α) : List α :=
  dest.take p.1 ++ src ++ dest.drop p.2

/-- `Selection::give_all`: `dest.splice(.., src)` — the destination is
replaced by the whole of `src`. -/
def give_all {α : Type} (src : List α) (dest : List α) : List α :=
  src

/-- `Selection::give`: dispatch on the variant. -/
def give {α : Type} : Selection → List α → List α → List α
  | .Specific v, src, dest => give_specific v src dest
  | .Range v, src, dest => give_range v src dest
  | .All, src, dest => give_all src dest

/-- `Selection::take_specific`: `indices.map(|i| data[i])`.  The Rust
indexing panics out of bounds; the model totalises it with the `Default`
vertex, and every claim about it carries an in-bounds hypothesis. -/
def take_specific {α : Type} [Inhabited α] (indices : List Nat)
    (data : List α) : List α :=
  indices.map (fun i => data.getD i default)

/-- `Selection::take_range`: the slice `data[start..end]`. -/
def take_range {α : Type} (p : Nat × Nat) (data : List α) : List α :=
  (data.take p.2).drop p.1

/-- `Selection::take_all`: a clone of the whole list. -/
def take_all {α : Type} (data : List α) : List α :=
  data

/-- `Selection::take`: dispatch on the variant. -/
def take {α : Type} [Inhabited α] : Selection → List α → List α
  | .Specific v, data => take_specific v data
  | .Range v, data => take_range v data
  | .All, data => take_all data

/-- Specification-side predicate: the selection only addresses positions
that are in bounds for a list of length `n`. -/
def inBounds : Selection → Nat → Prop
  | .Specific l, n => ∀ i ∈ l, i < n
  | .Range p, n => p.1 ≤ p.2 ∧ p.2 ≤ n
  | .All, _ => True

/-- Specification-side predicate: the selection addresses position `j`. -/
def addresses : Selection → Nat → Prop
  | .Specific l, j => j ∈ l
  | .Range p, j => p.1 ≤ j ∧ j < p.2
  | .All, _ => True

end Selection

/-- `Alteration` from `src/part/alteration.rs`. -/
structure Alteration where
  magnitude : ℝ
  dimension : Vector
  operation : MatrixType

namespace Alteration

/-- `Alteration::new(operation)`: zero magnitude, default dimension. -/
def new (operation : MatrixType) : Alteration :=
  ⟨0, default, operation⟩

/-- `Alteration::with_magnitude`. -/
def with_magnitude (a : Alteration) (value : ℝ) : Alteration :=
  { a with magnitude := value }

/-- `Alteration::with_dimension`. -/
def with_dimension (a : Alteration) (value : Vector) : Alteration :=
  { a with dimension := value }

/-- `Alteration::build`: in the source this contains only the two comments
"verify that magnitude is non-zero" and "verify that at least one dimension
is non-zero" and returns `self` unchanged — no check is performed and the
return type is `Self`, not `Result`. -/
def build (a : Alteration) : Alteration :=
  a

/-- `Alteration::update(value)`: set the magnitude. -/
def update (a : Alteration) (value : ℝ) : Alteration :=
  { a with magnitude := value }

/-- `Alteration::apply(vertices)`: scale the dimension by the magnitude
componentwise, derive the matching matrix, transform every vertex. -/
noncomputable def apply (a : Alteration) (vertices : List Vertex) :
    List Vertex :=
  let vector := a.dimension.scalarMul a.magnitude
  let matrix := Matrix.matching a.operation vector.x vector.y vector.z
  vertices.map (fun vertex => vertex.transform matrix)

/-- Modelled from the spec: `Alteration::scale(dimension)` (called from
`AttributeItem::scale_*` but not among the provided sources): a `Scale`
alteration carrying the given dimension. -/
def scale (dimension : Vector) : Alteration :=
  (new .Scale).with_dimension dimension

/-- Modelled from the spec: `Alteration::rotate(dimension)` (called from
`AttributeItem::rotate_*` but not among the provided sources). -/
def rotate (dimension : Vector) : Alteration :=
  (new .Rotate).with_dimension dimension

/-- Modelled from the spec: `Alteration::translate(dimension)` (called
from `AttributeItem::translate_*` but not among the provided sources). -/
def translate (dimension : Vector) : Alteration :=
  (new .Translate).with_dimension dimension

/-- Modelled from the spec: `Alteration::update_magnitude` (called from
`AttributeItem::update_magnitude` but not among the provided sources);
spec 4.5: "`update_magnitude` ... mutate the knob in place". -/
def update_magnitude (a : Alteration) (magnitude : ℝ) : Alteration :=
  a.update magnitude

end Alteration

/-- `AttributeItem` from `src/part/attribute.rs`: one `Selection` paired
with one `Alteration`. -/
structure AttributeItem where
  selection : Selection
  alteration : Alteration

namespace AttributeItem

/-- `AttributeItem::update_magnitude`. -/
def update_magnitude (item : AttributeItem) (magnitude : ℝ) :
    AttributeItem :=
  { item with alteration := item.alteration.update_magnitude magnitude }

/-- `AttributeItem::apply(vertices)`: take the selection, transform it,
give it back. -/
noncomputable def apply (item : AttributeItem) (vertices : List Vertex) :
    List Vertex :=
  let points := item.selection.take vertices
  let points2 := item.alteration.apply points
  item.selection.give points2 vertices

end AttributeItem

/-- `Attribute` from `src/part/attribute.rs`: a named ordered list of
`AttributeItem`s.  The `impl Attribute` block in the provided sources is
empty; its methods are exercised by the crate's tests in
`src/part/part.rs` and are modelled from the spec below. -/
structure Attribute where
  name : String
  items : List AttributeItem

namespace Attribute

/-- Modelled from the spec: `Attribute::new(name, items)` as called by the
crate's tests (`Attribute::new("Length".into(), vec![...])`). -/
def new (name : String) (items : List AttributeItem) : Attribute :=
  ⟨name, items⟩

/-- Modelled from the spec: `Attribute::update(magnitude)` "broadcasts one
scalar into every item's Alteration" (spec 4.6); the method body is not
among the provided sources. -/
def update (a : Attribute) (magnitude : ℝ) : Attribute :=
  { a with items := a.items.map (fun item => item.update_magnitude magnitude) }

/-- One-item-at-a-time application used by `revise`, mirroring a loop over
the items that repeatedly mutates the vertex list. -/
noncomputable def reviseItems : List AttributeItem → List Vertex → List Vertex
  | [], vertices => vertices
  | item :: rest, vertices => reviseItems rest (item.apply vertices)

/-- Modelled from the spec: `Attribute::revise(geometry)` "applies every
item's current alteration to the geometry's vertex list in item order"
(spec 4.6); the method body is not among the provided sources.  It mutates
only the geometry's vertex list, through each item's `apply`. -/
noncomputable def revise (a : Attribute) (g : Geometry) : Geometry :=
  { g with vertices := reviseItems a.items g.vertices }

end Attribute

/-- The matrices produced by the named `Matrix` constructors, closed under
composition by multiplication. -/
inductive Matrix.Built : Matrix → Prop where
  | scale : ∀ x y z, Matrix.Built (Matrix.scale x y z)
  | translate : ∀ x y z, Matrix.Built (Matrix.translate x y z)
  | rotate_x : ∀ x, Matrix.Built (Matrix.rotate_x x)
  | rotate_y : ∀ y, Matrix.Built (Matrix.rotate_y y)
  | rotate_z : ∀ z, Matrix.Built (Matrix.rotate_z z)
  | rotate : ∀ x y z, Matrix.Built (Matrix.rotate x y z)
  | mul : ∀ a b, Matrix.Built a → Matrix.Built b → Matrix.Built (a.mul b)

/-- The bottom row of the matrix is `(0,0,0,1)`. -/
def Matrix.affineBottom (m : Matrix) : Prop :=
  m.m41 = 0 ∧ m.m42 = 0 ∧ m.m43 = 0 ∧ m.m44 = 1

/-! ### List helper lemmas -/

/-- Setting an in-bounds position of a list to the value already there
leaves the list unchanged. -/
theorem set_getD_self {α : Type} (l : List α) (i : Nat) (d : α)
    (h : i < l.length) : l.set i (l.getD i d) = l := by
  induction l generalizing i with
  | nil => simp at h
  | cons hd tl ih =>
    cases i with
    | zero => simp [List.getD]
    | succ k =>
      simp only [List.length_cons, Nat.succ_lt_succ_iff] at h
      have := ih k h
      simp only [List.getD_cons_succ, List.set_cons_succ]
      rw [this]

/-- `zip` only consumes as many left elements as the right list has. -/
theorem zip_take_len {α β : Type} (l : List α) (src : List β) :
    l.zip src = (l.take src.length).zip src := by
  induction l generalizing src with
  | nil => simp
  | cons hd tl ih =>
    cases src with
    | nil => simp
    | cons shd stl => simp [List.zip_cons_cons, ih stl]

/-- A fold of positional writes preserves the length of the list. -/
theorem foldl_set_length {α : Type} (ps : List (Nat × α)) (dest : List α) :
    (ps.foldl (fun d p => d.set p.1 p.2) dest).length = dest.length := by
  induction ps generalizing dest with
  | nil => rfl
  | cons hd tl ih => simp [ih (dest.set hd.1 hd.2)]

/-- A fold of positional writes leaves every position that none of the
writes addresses unchanged. -/
theorem foldl_set_frame {α : Type} (ps : List (Nat × α)) (dest : List α)
    (j : Nat) (h : ∀ p ∈ ps, p.1 ≠ j) :
    (ps.foldl (fun d p => d.set p.1 p.2) dest)[j]? = dest[j]? := by
  induction ps generalizing dest with
  | nil => rfl
  | cons hd tl ih =>
    have hne : hd.1 ≠ j := h hd (List.mem_cons_self hd tl)
    have htl : ∀ p ∈ tl, p.1 ≠ j := fun p hp => h p (List.mem_cons_of_mem hd hp)
    calc (List.foldl (fun d p => d.set p.1 p.2) (dest.set hd.1 hd.2) tl)[j]?
        = (dest.set hd.1 hd.2)[j]? := ih (dest.set hd.1 hd.2) htl
      _ = dest[j]? := List.getElem?_set_ne hne

/-- When the written positions are pairwise distinct and in bounds, each
write of a fold of positional writes lands: position `p.1` ends up holding
`p.2`. -/
theorem foldl_set_writes {α : Type} (ps : List (Nat × α)) (dest : List α)
    (hnd : (ps.map Prod.fst).Nodup) (hb : ∀ p ∈ ps, p.1 < dest.length) :
    ∀ p ∈ ps, (ps.foldl (fun d p => d.set p.1 p.2) dest)[p.1]? = some p.2 := by
  induction ps generalizing dest with
  | nil => intro p hp; simp at hp
  | cons hd tl ih =>
    intro p hp
    simp only [List.map_cons, List.nodup_cons] at hnd
    rcases List.mem_cons.mp hp with heq | hmem
    · subst heq
      have hfr : ∀ q ∈ tl, q.1 ≠ p.1 := by
        intro q hq hcontra
        exact hnd.1 (hcontra ▸ List.mem_map_of_mem Prod.fst hq)
      calc (List.foldl (fun d q => d.set q.1 q.2) (dest.set p.1 p.2) tl)[p.1]?
          = (dest.set p.1 p.2)[p.1]? := foldl_set_frame tl _ p.1 hfr
        _ = some p.2 := by
            have hlt : p.1 < dest.length := hb p (List.mem_cons_self p tl)
            simp [List.getElem?_set, hlt]
    · have hb2 : ∀ q ∈ tl, q.1 < (dest.set hd.1 hd.2).length := by
        intro q hq
        simpa using hb q (List.mem_cons_of_mem hd hq)
      exact ih (dest.set hd.1 hd.2) hnd.2 hb2 p hmem

/-! ### Selection round-trip lemmas -/

/-- `give_specific` of the untouched `take_specific` restores the list. -/
theorem give_take_specific {α : Type} [Inhabited α] (l : List Nat)
    (vs : List α) (h : ∀ i ∈ l, i < vs.length) :
    Selection.give_specific l (Selection.take_specific l vs) vs = vs := by
  induction l with
  | nil => rfl
  | cons i tl ih =>
    have hi : i < vs.length := h i (List.mem_cons_self i tl)
    have htl : ∀ j ∈ tl, j < vs.length :=
      fun j hj => h j (List.mem_cons_of_mem i hj)
    simp only [Selection.give_specific, Selection.take_specific,
      List.map_cons, List.zip_cons_cons, List.foldl_cons]
    rw [set_getD_self vs i default hi]
    simpa [Selection.give_specific, Selection.take_specific] using ih htl

/-- `give_range` of the untouched `take_range` restores the list. -/
theorem give_take_range {α : Type} (s e : Nat) (vs : List α)
    (hse : s ≤ e) (he : e ≤ vs.length) :
    Selection.give_range (s, e) (Selection.take_range (s, e) vs) vs = vs := by
  simp only [Selection.give_range, Selection.take_range]
  have h1 : vs.take s ++ (vs.take e).drop s = vs.take e := by
    have h2 : (vs.take e).take s = vs.take s := by
      rw [List.take_take, Nat.min_eq_left hse]
    rw [← h2, List.take_append_drop]
  rw [h1, List.take_append_drop]

/--
C5: For each Selection variant (Specific with in-bounds indices, Range
with a valid in-bounds half-open interval, and All), `Selection.give`
applied to the exact list returned by `Selection.take` on a vertex list,
with that list unmodified, reproduces the original vertex list exactly.
-/
theorem claim5_take_give_roundtrip {α : Type} [Inhabited α]
    (sel : Selection) (vs : List α) (h : sel.inBounds vs.length) :
    sel.give (sel.take vs) vs = vs := by
  cases sel with
  | Specific l => exact give_take_specific l vs h
  | Range p => exact give_take_range p.1 p.2 vs h.1 h.2
  | All => rfl

/-- Witness for C5 at concrete inputs, one per variant. -/
theorem claim5_take_give_roundtrip_witness :
    (Selection.Specific [2, 0]).give
        ((Selection.Specific [2, 0]).take [5, 6, 7]) [5, 6, 7] = [5, 6, 7]
    ∧ (Selection.Range (1, 3)).give
        ((Selection.Range (1, 3)).take [5, 6, 7]) [5, 6, 7] = [5, 6, 7]
    ∧ Selection.All.give (Selection.All.take [5, 6, 7]) [5, 6, 7]
        = [5, 6, 7] := by
  refine ⟨?_, ?_, ?_⟩
  · exact claim5_take_give_roundtrip (Selection.Specific [2, 0]) [5, 6, 7]
      (by simp only [Selection.inBounds]; decide)
  · exact claim5_take_give_roundtrip (Selection.Range (1, 3)) [5, 6, 7]
      (by exact ⟨by decide, by decide⟩)
  · exact claim5_take_give_roundtrip Selection.All [5, 6, 7] trivial

/-! ### Frame lemmas for give -/

/-- `Alteration::apply` maps over the vertices, so it preserves length. -/
theorem alteration_apply_length (a : Alteration) (vs : List Vertex) :
    (a.apply vs).length = vs.length := by
  simp [Alteration.apply]

/-- Length of a `give_range` result when the range is valid and the source
has exactly the range's width. -/
theorem give_range_length {α : Type} (s e : Nat) (src vs : List α)
    (hse : s ≤ e) (he : e ≤ vs.length) (hsrc : src.length = e - s) :
    (Selection.give_range (s, e) src vs).length = vs.length := by
  simp only [Selection.give_range, List.length_append, List.length_take,
    List.length_drop]
  omega

/-- `give_range` leaves positions outside the half-open interval
unchanged when the source has exactly the range's width. -/
theorem give_range_frame {α : Type} (s e : Nat) (src vs : List α)
    (hse : s ≤ e) (he : e ≤ vs.length) (hsrc : src.length = e - s)
    (j : Nat) (hj : j < s ∨ e ≤ j) :
    (Selection.give_range (s, e) src vs)[j]? = vs[j]? := by
  have hts : (vs.take s).length = s := by
    simp only [List.length_take]
    omega
  show ((vs.take s ++ src) ++ vs.drop e)[j]? = vs[j]?
  rcases hj with hj | hj
  · rw [List.getElem?_append,
      if_pos (by simp only [List.length_append]; omega)]
    rw [List.getElem?_append, if_pos (by omega)]
    rw [List.getElem?_take, if_pos (by omega)]
  · have hlen : (vs.take s ++ src).length = e := by
      simp only [List.length_append]
      omega
    rw [List.getElem?_append, if_neg (by omega), hlen, List.getElem?_drop]
    congr 1
    omega

/--
C2: For every AttributeItem whose Selection addresses only in-bounds
indices of the vertex list, `AttributeItem.apply(vertices)` equals the
three-step composition take → transform (by the matrix derived from the
alteration: `Matrix::matching` of the operation kind applied to the
dimension scaled componentwise by the magnitude) → give; every vertex at
a position not addressed by the selection is unchanged, and the length of
the vertex list is unchanged.
-/
theorem claim2_apply_composition_and_frame (item : AttributeItem)
    (vs : List Vertex) (h : item.selection.inBounds vs.length) :
    item.apply vs
      = item.selection.give
          ((item.selection.take vs).map (fun v =>
            v.transform (Matrix.matching item.alteration.operation
              (item.alteration.dimension.scalarMul item.alteration.magnitude).x
              (item.alteration.dimension.scalarMul item.alteration.magnitude).y
              (item.alteration.dimension.scalarMul item.alteration.magnitude).z)))
          vs
    ∧ (item.apply vs).length = vs.length
    ∧ ∀ j, j < vs.length → ¬ item.selection.addresses j →
        (item.apply vs)[j]? = vs[j]? := by
  obtain ⟨sel, alt⟩ := item
  refine ⟨rfl, ?_, ?_⟩
  · show (sel.give (alt.apply (sel.take vs)) vs).length = vs.length
    cases sel with
    | Specific l =>
        exact foldl_set_length (l.zip (alt.apply (Selection.take_specific l vs))) vs
    | Range p =>
        have hp : p.1 ≤ p.2 ∧ p.2 ≤ vs.length := h
        have hw : (alt.apply (Selection.take_range p vs)).length = p.2 - p.1 := by
          rw [alteration_apply_length]
          simp only [Selection.take_range, List.length_drop, List.length_take]
          omega
        exact give_range_length p.1 p.2 _ vs hp.1 hp.2 hw
    | All =>
        show (alt.apply (Selection.take_all vs)).length = vs.length
        exact alteration_apply_length alt vs
  · intro j hjlt hjaddr
    show (sel.give (alt.apply (sel.take vs)) vs)[j]? = vs[j]?
    cases sel with
    | Specific l =>
        apply foldl_set_frame
        intro p hp hcontra
        exact hjaddr (hcontra ▸ (List.of_mem_zip hp).1)
    | Range p =>
        have hp : p.1 ≤ p.2 ∧ p.2 ≤ vs.length := h
        have hw : (alt.apply (Selection.take_range p vs)).length = p.2 - p.1 := by
          rw [alteration_apply_length]
          simp only [Selection.take_range, List.length_drop, List.length_take]
          omega
        apply give_range_frame p.1 p.2 _ vs hp.1 hp.2 hw
        by_contra hcon
        push_neg at hcon
        exact hjaddr ⟨hcon.1, hcon.2⟩
    | All => exact absurd trivial hjaddr

/-- Witness for C2: a translate item addressing index 1 of a two-vertex
list; the unaddressed position 0 is unchanged and the length stays 2. -/
theorem claim2_apply_composition_and_frame_witness :
    ((AttributeItem.mk (Selection.Specific [1])
        (Alteration.mk 2 ⟨1, 0, 0⟩ MatrixType.Translate)).apply
        [⟨0, 0, 0⟩, ⟨1, 1, 1⟩]).length = 2
    ∧ ((AttributeItem.mk (Selection.Specific [1])
        (Alteration.mk 2 ⟨1, 0, 0⟩ MatrixType.Translate)).apply
        [⟨0, 0, 0⟩, ⟨1, 1, 1⟩])[0]?
        = ([⟨0, 0, 0⟩, ⟨1, 1, 1⟩] : List Vertex)[0]? := by
  have h := claim2_apply_composition_and_frame
    (AttributeItem.mk (Selection.Specific [1])
      (Alteration.mk 2 ⟨1, 0, 0⟩ MatrixType.Translate))
    [⟨0, 0, 0⟩, ⟨1, 1, 1⟩]
    (by simp only [Selection.inBounds]; decide)
  refine ⟨by simpa using h.2.1, ?_⟩
  exact h.2.2 0 (by decide) (by simp only [Selection.addresses]; decide)

/--
C10: For the Specific(indices) variant with all indices in bounds for the
destination, when the source list is shorter than the index list,
`Selection.give` does not fail: the pairing of indices with source values
stops at the shorter of the two lists, so a write happens only for
k < source.length (the result coincides with giving through the index
prefix of the source's length); the destination keeps its length; every
position not among the paired index prefix is unchanged; and when the
paired index prefix has no duplicate indices each write lands.
-/
theorem claim10_give_specific_short_source {α : Type} (l : List Nat)
    (src dest : List α) (hb : ∀ i ∈ l, i < dest.length)
    (hshort : src.length < l.length) :
    (Selection.Specific l).give src dest
        = (Selection.Specific (l.take src.length)).give src dest
    ∧ ((Selection.Specific l).give src dest).length = dest.length
    ∧ (∀ j, j ∉ l.take src.length →
        ((Selection.Specific l).give src dest)[j]? = dest[j]?)
    ∧ ((l.take src.length).Nodup →
        ∀ p ∈ (l.take src.length).zip src,
          ((Selection.Specific l).give src dest)[p.1]? = some p.2) := by
  have hzip : l.zip src = (l.take src.length).zip src := zip_take_len l src
  refine ⟨?_, ?_, ?_, ?_⟩
  · show Selection.give_specific l src dest
        = Selection.give_specific (l.take src.length) src dest
    unfold Selection.give_specific
    rw [hzip]
  · exact foldl_set_length (l.zip src) dest
  · intro j hj
    show (Selection.give_specific l src dest)[j]? = dest[j]?
    unfold Selection.give_specific
    rw [hzip]
    apply foldl_set_frame
    intro p hp hcontra
    exact hj (hcontra ▸ (List.of_mem_zip hp).1)
  · intro hnd p hp
    show (Selection.give_specific l src dest)[p.1]? = some p.2
    unfold Selection.give_specific
    rw [hzip]
    apply foldl_set_writes
    · have hlt : (l.take src.length).length ≤ src.length := by
        simp only [List.length_take]
        omega
      rw [List.map_fst_zip _ _ hlt]
      exact hnd
    · intro q hq
      exact hb q.1 (List.mem_of_mem_take (List.of_mem_zip hq).1)
    · exact hp

/-- Witness for C10: three in-bounds indices, a one-element source. -/
theorem claim10_give_specific_short_source_witness :
    (Selection.Specific [0, 1, 2]).give [9] [4, 5, 6]
        = (Selection.Specific ([0, 1, 2].take 1)).give [9] [4, 5, 6]
    ∧ ((Selection.Specific [0, 1, 2]).give [9] [4, 5, 6]).length = 3
    ∧ ((Selection.Specific [0, 1, 2]).give [9] [4, 5, 6])[1]?
        = ([4, 5, 6] : List Nat)[1]?
    ∧ ((Selection.Specific [0, 1, 2]).give [9] [4, 5, 6])[0]? = some 9 := by
  have h := claim10_give_specific_short_source [0, 1, 2] [9] [4, 5, 6]
    (by decide) (by decide)
  exact ⟨h.1, h.2.1, h.2.2.1 1 (by decide),
    h.2.2.2 (by decide) (0, 9) (by decide)⟩

/--
C3 fails on the code: for the Range variant, `give` with a source whose
length differs from `end - start` does not fail with a length-mismatch
error; it splices the source into the interval, growing the destination
(here from length 4 to length 5); for the All variant, `give` replaces the
destination by the source regardless of length (here shrinking 3 to 1).
-/
theorem claim3_counterexample :
    (Selection.Range (1, 3)).give [10, 20, 30] [1, 2, 3, 4]
      = ([1, 10, 20, 30, 4] : List Nat)
    ∧ ((Selection.Range (1, 3)).give [10, 20, 30] [1, 2, 3, 4]).length = 5
    ∧ ([1, 2, 3, 4] : List Nat).length = 4
    ∧ Selection.All.give [9] [1, 2, 3] = ([9] : List Nat)
    ∧ (Selection.All.give [9] [1, 2, 3]).length = 1 :=
  ⟨rfl, rfl, rfl, rfl, rfl⟩

/--
C3 amended: `give` for Range(start,end) splices the source into the
half-open interval — the destination becomes
`dest[0..start] ++ source ++ dest[end..]`, whose length for a valid range
is `dest.length - (end - start) + source.length` — and `give` for All
replaces the destination by the source whatever the lengths; no
length-mismatch error is signalled (the operation is total and returns no
error value).
-/
theorem claim3_give_splices_instead_of_failing {α : Type} (s e : Nat)
    (src dest : List α) :
    (Selection.Range (s, e)).give src dest
        = dest.take s ++ src ++ dest.drop e
    ∧ Selection.All.give src dest = src
    ∧ (s ≤ e → e ≤ dest.length →
        ((Selection.Range (s, e)).give src dest).length
          = dest.length - (e - s) + src.length) := by
  refine ⟨rfl, rfl, ?_⟩
  intro h1 h2
  show (dest.take s ++ src ++ dest.drop e).length = _
  simp only [List.length_append, List.length_take, List.length_drop]
  omega

/-- Witness for C3's amended statement at the counterexample's input. -/
theorem claim3_give_splices_instead_of_failing_witness :
    ((Selection.Range (1, 3)).give [10, 20, 30] [1, 2, 3, 4]).length
      = ([1, 2, 3, 4] : List Nat).length - (3 - 1)
          + ([10, 20, 30] : List Nat).length :=
  (claim3_give_splices_instead_of_failing 1 3 [10, 20, 30] [1, 2, 3, 4]).2.2
    (by decide) (by decide)

/-- `reviseItems` is the left fold of item application in item order. -/
theorem reviseItems_eq_foldl (items : List AttributeItem)
    (vs : List Vertex) :
    Attribute.reviseItems items vs
      = items.foldl (fun vs2 it => it.apply vs2) vs := by
  induction items generalizing vs with
  | nil => rfl
  | cons it rest ih =>
      simp only [Attribute.reviseItems, List.foldl_cons]
      exact ih (it.apply vs)

/--
C1 (the `impl Attribute` block in the provided sources is empty; `update`
and `revise` are modelled from the spec): `update m` sets the magnitude of
every item's alteration to the single scalar m simultaneously, preserving
the name, the item count, and each item's selection, dimension and
operation; `revise g` leaves the faces untouched and rewrites the vertex
list by applying each item's current alteration in item-list order — it is
the only modelled Attribute operation that touches a Geometry at all.
-/
theorem claim1_update_broadcasts_revise_in_order (a : Attribute) (m : ℝ)
    (g : Geometry) :
    (a.update m).name = a.name
    ∧ (a.update m).items.length = a.items.length
    ∧ (∀ k : Nat, ((a.update m).items[k]?).map (fun (it : AttributeItem) => it.alteration.magnitude)
        = (a.items[k]?).map (fun (_ : AttributeItem) => m))
    ∧ (∀ k : Nat, ((a.update m).items[k]?).map (fun (it : AttributeItem) => it.selection)
        = (a.items[k]?).map (fun (it : AttributeItem) => it.selection))
    ∧ (∀ k : Nat, ((a.update m).items[k]?).map (fun (it : AttributeItem) => it.alteration.dimension)
        = (a.items[k]?).map (fun (it : AttributeItem) => it.alteration.dimension))
    ∧ (∀ k : Nat, ((a.update m).items[k]?).map (fun (it : AttributeItem) => it.alteration.operation)
        = (a.items[k]?).map (fun (it : AttributeItem) => it.alteration.operation))
    ∧ (a.revise g).faces = g.faces
    ∧ (a.revise g).vertices
        = a.items.foldl (fun vs it => it.apply vs) g.vertices := by
  refine ⟨rfl, by simp [Attribute.update], ?_, ?_, ?_, ?_, rfl, ?_⟩
  · intro k
    simp only [Attribute.update, List.getElem?_map, Option.map_map]
    cases a.items[k]? <;> rfl
  · intro k
    simp only [Attribute.update, List.getElem?_map, Option.map_map]
    cases a.items[k]? <;> rfl
  · intro k
    simp only [Attribute.update, List.getElem?_map, Option.map_map]
    cases a.items[k]? <;> rfl
  · intro k
    simp only [Attribute.update, List.getElem?_map, Option.map_map]
    cases a.items[k]? <;> rfl
  · exact reviseItems_eq_foldl a.items g.vertices

/--
C4: the claim describes the intended build-time validation, but the code
performs none of it: `Alteration::build` returns the alteration unchanged
(its return type is `Self`, not `Result`), so a Scale alteration with
magnitude 0 builds successfully instead of yielding the declared
fixed-attribute error — even though `Error::FixedAttribute` is declared
exactly for this case and `build`'s own comments announce the check.
-/
theorem claim4_build_performs_no_validation :
    ((Alteration.new MatrixType.Scale).with_magnitude 0).build
      = (Alteration.new MatrixType.Scale).with_magnitude 0
    ∧ (((Alteration.new MatrixType.Scale).with_magnitude 0).build).magnitude
      = 0
    ∧ Error.FixedAttribute.message = "Attribute scaling value is 0.0"
    ∧ ∀ alt : Alteration, alt.build = alt :=
  ⟨rfl, rfl, rfl, fun _ => rfl⟩

/--
C9: `Face::new` subtracts 1 from each 1-based input, saturating at 0
(`Nat` subtraction is exactly `usize::saturating_sub` here): from (1,3,9)
it stores (0,2,8), and converting back to text re-offsets by +1 giving
"f 1 3 9"; an input of 0 also maps to 0.
-/
theorem claim9_face_one_based_roundtrip :
    (∀ a b c : Nat, Face.new a b c = Face.mk (a - 1) (b - 1) (c - 1))
    ∧ Face.new 1 3 9 = Face.mk 0 2 8
    ∧ (Face.new 1 3 9).toText = "f 1 3 9"
    ∧ Face.new 0 3 9 = Face.mk 0 2 8 := by
  refine ⟨fun a b c => rfl, rfl, ?_, rfl⟩
  rfl

/-- A face fails `is_valid` exactly when one of its indices reaches the
vertex count. -/
theorem not_is_valid_iff (f : Face) (vs : List Vertex) :
    ((!(f.is_valid vs)) = true)
      ↔ (vs.length ≤ f.a ∨ vs.length ≤ f.b ∨ vs.length ≤ f.c) := by
  simp [Face.is_valid, Nat.not_lt, or_assoc]

/--
C6 fails on the code as to the error kind: `validated` of a geometry with
one vertex and a single face referencing vertex index 5 returns
`Error.ParseError` — the declared parse/format error, whose message is
"Could not parse string to geometry" — because the error enumeration
declares no structural-validation kind at all.
-/
theorem claim6_counterexample :
    (Geometry.mk [⟨0, 0, 0⟩] [Face.mk 0 0 5]).validated
      = Except.error Error.ParseError
    ∧ Error.ParseError.message = "Could not parse string to geometry" :=
  ⟨rfl, rfl⟩

/--
C6 amended: `Geometry::validated()` returns an error — namely
`Error.ParseError`, the parse/format kind, there being no distinct
structural-validation variant in the error enumeration — exactly when some
face references a vertex index greater than or equal to the vertex count,
and returns the geometry unchanged otherwise.
-/
theorem claim6_validated_iff_out_of_range (g : Geometry) :
    (g.validated = Except.error Error.ParseError
      ↔ ∃ f ∈ g.faces, g.vertices.length ≤ f.a ∨ g.vertices.length ≤ f.b
          ∨ g.vertices.length ≤ f.c)
    ∧ (g.validated = Except.ok g
      ↔ ∀ f ∈ g.faces, f.a < g.vertices.length ∧ f.b < g.vertices.length
          ∧ f.c < g.vertices.length) := by
  rcases hf : g.faces.find? (fun face => !(face.is_valid g.vertices))
    with _ | f0
  · have hall := List.find?_eq_none.mp hf
    have hok : g.validated = Except.ok g := by
      unfold Geometry.validated
      rw [hf]
    rw [hok]
    constructor
    · constructor
      · intro h
        exact absurd h (by simp)
      · rintro ⟨f, hfmem, hfcond⟩
        exact absurd ((not_is_valid_iff f g.vertices).mpr hfcond)
          (by simpa using hall f hfmem)
    · constructor
      · intro _ f hfmem
        have hcond := hall f hfmem
        have hv : ¬ (g.vertices.length ≤ f.a ∨ g.vertices.length ≤ f.b
            ∨ g.vertices.length ≤ f.c) := by
          intro hcontra
          exact hcond ((not_is_valid_iff f g.vertices).mpr hcontra)
        push_neg at hv
        exact ⟨hv.1, hv.2.1, hv.2.2⟩
      · intro _
        rfl
  · have hmem : f0 ∈ g.faces := List.mem_of_find?_eq_some hf
    have hcond0 := List.find?_some hf
    have hcond : (!(f0.is_valid g.vertices)) = true := hcond0
    have herr : g.validated = Except.error Error.ParseError := by
      unfold Geometry.validated
      rw [hf]
    rw [herr]
    constructor
    · constructor
      · intro _
        exact ⟨f0, hmem, (not_is_valid_iff f0 g.vertices).mp hcond⟩
      · intro _
        rfl
    · constructor
      · intro h
        exact absurd h (by simp)
      · intro hforall
        have hin := hforall f0 hmem
        have : ¬ ((!(f0.is_valid g.vertices)) = true) := by
          rw [not_is_valid_iff]
          push_neg
          exact ⟨hin.1, hin.2.1, hin.2.2⟩
        exact absurd hcond this

/-- Witness for C6's amended statement: a valid one-face geometry passes
`validated` unchanged. -/
theorem claim6_validated_iff_out_of_range_witness :
    (Geometry.mk [⟨0, 0, 0⟩, ⟨1, 0, 0⟩, ⟨0, 1, 0⟩] [Face.mk 0 1 2]).validated
      = Except.ok (Geometry.mk [⟨0, 0, 0⟩, ⟨1, 0, 0⟩, ⟨0, 1, 0⟩]
          [Face.mk 0 1 2]) := by
  apply (claim6_validated_iff_out_of_range _).2.mpr
  intro f hf
  simp only [List.mem_singleton] at hf
  subst hf
  refine ⟨by simp, by simp, by simp⟩

/-- The bottom row `(0,0,0,1)` is preserved by the matrix product. -/
theorem affineBottom_mul (a b : Matrix) (ha : a.affineBottom)
    (hb : b.affineBottom) : (a.mul b).affineBottom := by
  obtain ⟨ha1, ha2, ha3, ha4⟩ := ha
  obtain ⟨hb1, hb2, hb3, hb4⟩ := hb
  refine ⟨?_, ?_, ?_, ?_⟩ <;>
    simp [Matrix.mul, ha1, ha2, ha3, ha4, hb1, hb2, hb3, hb4]

/-- Every matrix produced by the named constructors, and every product of
such matrices, has bottom row `(0,0,0,1)`. -/
theorem built_affineBottom (m : Matrix) (hm : m.Built) : m.affineBottom := by
  induction hm with
  | scale x y z => exact ⟨rfl, rfl, rfl, rfl⟩
  | translate x y z => exact ⟨rfl, rfl, rfl, rfl⟩
  | rotate_x x => exact ⟨rfl, rfl, rfl, rfl⟩
  | rotate_y y => exact ⟨rfl, rfl, rfl, rfl⟩
  | rotate_z z => exact ⟨rfl, rfl, rfl, rfl⟩
  | rotate x y z =>
      exact affineBottom_mul _ _
        (affineBottom_mul _ _ ⟨rfl, rfl, rfl, rfl⟩ ⟨rfl, rfl, rfl, rfl⟩)
        ⟨rfl, rfl, rfl, rfl⟩
  | mul a b _ _ iha ihb => exact affineBottom_mul a b iha ihb

/--
C7: `Vector.transform` always computes the homogeneous weight dw as the
dot product of the matrix's fourth row with (x,y,z,1) and divides dx, dy,
dz by dw unconditionally; and every matrix produced by the scale,
translate, rotate_x, rotate_y, rotate_z and rotate constructors, and
every product of such matrices, has bottom row (0,0,0,1), so dw = 1 and
the divide never divides by zero.
-/
theorem claim7_unconditional_divide_and_affine_bottom :
    (∀ (v : Vector) (m : Matrix),
      v.transform m
        = ⟨(m.m11 * v.x + m.m12 * v.y + m.m13 * v.z + m.m14 * 1) / homogW v m,
           (m.m21 * v.x + m.m22 * v.y + m.m23 * v.z + m.m24 * 1) / homogW v m,
           (m.m31 * v.x + m.m32 * v.y + m.m33 * v.z + m.m34 * 1) / homogW v m⟩)
    ∧ ∀ m : Matrix, m.Built →
        m.affineBottom ∧ ∀ v : Vector, homogW v m = 1 := by
  constructor
  · intro v m
    rfl
  · intro m hm
    have hb := built_affineBottom m hm
    refine ⟨hb, ?_⟩
    intro v
    obtain ⟨h1, h2, h3, h4⟩ := hb
    simp [homogW, h1, h2, h3, h4]

/-- Witness for C7 at a concrete constructed matrix (a product of a scale
and a translate). -/
theorem claim7_unconditional_divide_and_affine_bottom_witness :
    homogW ⟨5, 6, 7⟩ ((Matrix.scale 2 3 4).mul (Matrix.translate 1 2 3))
      = 1 :=
  (claim7_unconditional_divide_and_affine_bottom.2 _
    (Matrix.Built.mul _ _ (Matrix.Built.scale 2 3 4)
      (Matrix.Built.translate 1 2 3))).2 ⟨5, 6, 7⟩

/--
C8: `Vector.normalize` returns the input unchanged when its magnitude is
0 (in particular the zero vector normalizes to itself, with no division
performed), and for every vector of positive magnitude it divides each
component by the magnitude and the result has magnitude exactly 1 (the
real-number model of the float epsilon bound).
-/
theorem claim8_normalize_unit_or_unchanged (v : Vector) :
    (v.magnitude = 0 → v.normalize = v)
    ∧ (0 < v.magnitude →
        v.normalize
          = ⟨v.x / v.magnitude, v.y / v.magnitude, v.z / v.magnitude⟩
        ∧ (v.normalize).magnitude = 1) := by
  constructor
  · intro h
    unfold Vector.normalize
    rw [h]
    simp
  · intro h
    have hne : v.magnitude ≠ 0 := ne_of_gt h
    have heq : v.normalize
        = ⟨v.x / v.magnitude, v.y / v.magnitude, v.z / v.magnitude⟩ := by
      unfold Vector.normalize
      simp only [gt_iff_lt, h, if_pos]
    refine ⟨heq, ?_⟩
    rw [heq]
    have hs : (0 : ℝ) ≤ v.x * v.x + v.y * v.y + v.z * v.z :=
      add_nonneg (add_nonneg (mul_self_nonneg v.x) (mul_self_nonneg v.y))
        (mul_self_nonneg v.z)
    have hmm : v.magnitude * v.magnitude
        = v.x * v.x + v.y * v.y + v.z * v.z := Real.mul_self_sqrt hs
    have expand : Vector.magnitude
        ⟨v.x / v.magnitude, v.y / v.magnitude, v.z / v.magnitude⟩
        = Real.sqrt ((v.x / v.magnitude) * (v.x / v.magnitude)
            + (v.y / v.magnitude) * (v.y / v.magnitude)
            + (v.z / v.magnitude) * (v.z / v.magnitude)) := rfl
    have harg : (v.x / v.magnitude) * (v.x / v.magnitude)
        + (v.y / v.magnitude) * (v.y / v.magnitude)
        + (v.z / v.magnitude) * (v.z / v.magnitude) = 1 := by
      rw [div_mul_div_comm, div_mul_div_comm, div_mul_div_comm,
        div_add_div_same, div_add_div_same, ← hmm,
        div_self (mul_ne_zero hne hne)]
    rw [expand, harg, Real.sqrt_one]

/-- Witness for C8: the zero vector is unchanged; a unit-axis vector
normalizes to itself componentwise with magnitude 1. -/
theorem claim8_normalize_unit_or_unchanged_witness :
    (Vector.mk 0 0 0).normalize = Vector.mk 0 0 0
    ∧ (Vector.mk 0 0 1).normalize
        = Vector.mk (0 / (1 : ℝ)) (0 / (1 : ℝ)) (1 / (1 : ℝ))
    ∧ ((Vector.mk 0 0 1).normalize).magnitude = 1 := by
  have hzero : (Vector.mk 0 0 0).magnitude = 0 := by
    unfold Vector.magnitude
    norm_num
  have hone : (Vector.mk 0 0 1).magnitude = 1 := by
    unfold Vector.magnitude
    norm_num
  have hpos := (claim8_normalize_unit_or_unchanged (Vector.mk 0 0 1)).2
    (by rw [hone]; norm_num)
  refine ⟨(claim8_normalize_unit_or_unchanged (Vector.mk 0 0 0)).1 hzero,
    ?_, hpos.2⟩
  rw [hpos.1, hone]

end Construct
